import Mathlib

/-
  Verification of the MyScrapers ingestion pipeline against its
  natural-language specification.

  The definitions below are a shallow embedding of the JavaScript sources:

  - MyScrapers/helperFunctions/emailUtils.js : the rate-limited notification
    dispatch queue (processEmailQueue, sendEmailDirect, sendEmail,
    extractEmailsFromText), modelled as a discrete-event schedule over an
    explicit queue of tasks;
  - MyScrapers/euractivJobs.js : link normalization, slug generation,
    the deduplication loop of importJobsFromEuractiv, and the seniority
    classification;
  - MyScrapers/jobsin.js : slug generation, seniority classification,
    location splitting, and the per-candidate record construction step of
    scrapeStoryblokJobs;
  - MyScrapers/eu.js and the EPSO variants : record timestamp computation;
  - Job.js (JobSchema) : the sparse unique index on relativeLink, modelled
    as the store rejecting a save whose key is already present.

  JavaScript strings are modelled as Lean String / List Char; machine time
  is modelled as Nat milliseconds; Date values as Int epoch milliseconds.
-/

namespace MyScrapers

/-! ### Small models of JavaScript string primitives -/

/-- Model of the JavaScript word-character class (backslash-w in a regular
expression): ASCII letters, digits and underscore. -/
def isWordChar (c : Char) : Bool :=
  (65 ≤ c.toNat && c.toNat ≤ 90) || (97 ≤ c.toNat && c.toNat ≤ 122) ||
  (48 ≤ c.toNat && c.toNat ≤ 57) || c.toNat = 95

/-- Model of the JavaScript whitespace class (backslash-s), restricted to the
ASCII whitespace characters: space, tab, line feed, vertical tab, form feed,
carriage return. -/
def isJsSpace (c : Char) : Bool :=
  c.toNat = 32 || c.toNat = 9 || c.toNat = 10 || c.toNat = 11 ||
  c.toNat = 12 || c.toNat = 13

/-- Model of JavaScript String.prototype.toLowerCase restricted to ASCII:
maps the letters A-Z (codes 65-90) to a-z (codes 97-122) and leaves every
other character unchanged. -/
def jsToLower (c : Char) : Char :=
  if 65 ≤ c.toNat && c.toNat ≤ 90 then Char.ofNat (c.toNat + 32) else c

/-- Lowercase a whole string, character by character. -/
def jsToLowerStr (s : String) : String :=
  String.mk (s.data.map jsToLower)

/-- Prefix test on character lists: needle is an initial segment of hay. -/
def listIsPrefix : List Char → List Char → Bool
  | [], _ => true
  | _ :: _, [] => false
  | a :: as, b :: bs => a = b && listIsPrefix as bs

/-- Substring containment on character lists, scanning left to right.
Model of JavaScript String.prototype.includes. -/
def containsSub (hay needle : List Char) : Bool :=
  listIsPrefix needle hay ||
    match hay with
    | [] => false
    | _ :: tl => containsSub tl needle

/-- Model of JavaScript s.includes(sub). -/
def jsIncludes (s sub : String) : Bool :=
  containsSub s.data sub.data

/-- Model of JavaScript String.prototype.trim on ASCII whitespace:
drop leading and trailing whitespace characters. -/
def jsTrim (s : String) : String :=
  String.mk (((s.data.dropWhile isJsSpace).reverse.dropWhile isJsSpace).reverse)

/-- Model of JavaScript s.slice(-6): the last six characters of s, or all of
s when it is shorter than six characters. -/
def jsSliceLast6 (s : String) : String :=
  String.mk (s.data.drop (s.data.length - 6))

/-- Split a character list at every comma; like JavaScript split, the
result always has one more segment than there are commas, so the empty
input yields one empty segment. -/
def splitComma : List Char → List (List Char)
  | [] => [[]]
  | c :: tl =>
      let rest := splitComma tl
      if c = ',' then [] :: rest
      else (c :: rest.headD []) :: rest.tail

/-- Model of JavaScript s.split(','). -/
def jsSplitComma (s : String) : List String :=
  (splitComma s.data).map String.mk

/-! ### The notification dispatch queue (emailUtils.js)

The queue of helperFunctions/emailUtils.js is drained by processEmailQueue
(lines 31-57): it removes the first REQUEST_LIMIT tasks with slice, maps
each to a sendEmailDirect call, waits for all of those promises to settle
with Promise.all, then schedules the next drain pass after TIME_WINDOW
milliseconds with setTimeout.  Each enqueued task additionally stores the
resolve and reject callbacks of the promise that sendEmail returned
(lines 108-125).

The model below represents a task by its recipient address, the model time
its delivery call takes to settle, and a flag saying whether the transport
throws for it.  A whole drain is represented by its schedule: the list of
(dispatch time, batch) pairs. -/

/-- REQUEST_LIMIT = 2 in emailUtils.js line 7. -/
def REQUEST_LIMIT : Nat := 2

/-- TIME_WINDOW = 1000 milliseconds in emailUtils.js line 8. -/
def TIME_WINDOW : Nat := 1000

/-- A task sitting in the email queue: the recipient address, the model
duration of its sendEmailDirect call, and whether the transport
(resend.emails.send) throws for it. -/
structure EmailItem where
  email : String
  dur : Nat
  transportFails : Bool
deriving DecidableEq, Repr

/-- Result of one sendEmailDirect call: either a success response or an
error object with a message (sendEmailDirect catches every exception and
returns an error result, emailUtils.js lines 94-97). -/
inductive SendOutcome where
  | ok
  | err (msg : String)
deriving DecidableEq, Repr

/-- Whether the address contains an at sign. -/
def hasAtSign (s : String) : Bool :=
  s.data.contains '@'

/-- Model of sendEmailDirect (emailUtils.js lines 63-98).  Returns the
outcome together with a flag recording whether the transport was invoked.
An address that is empty or lacks an at sign is rejected up front with the
error result Invalid email address, before any transport call (lines
65-68); a transport exception is caught and becomes an error result
(lines 94-97). -/
def sendEmailDirectModel (it : EmailItem) : SendOutcome × Bool :=
  if it.email = "" || !hasAtSign it.email then
    (.err "Invalid email address", false)
  else if it.transportFails then
    (.err "transport error", true)
  else
    (.ok, true)

/-- Effective settle duration of a task's sendEmailDirect promise: an
invalid address returns without calling the transport, so it settles
immediately; otherwise the delivery call runs for its full duration. -/
def effDur (it : EmailItem) : Nat :=
  if it.email = "" || !hasAtSign it.email then 0 else it.dur

/-- Time at which Promise.all over a batch settles, relative to dispatch:
the maximum of the batch members' effective durations. -/
def batchSettle (b : List EmailItem) : Nat :=
  b.foldr (fun it m => max (effDur it) m) 0

/-- Drain schedule of processEmailQueue (emailUtils.js lines 31-57),
with REQUEST_LIMIT specialized to its source value 2: each pass takes the
first two queued tasks (queue.slice(0, 2) / queue.slice(2)), dispatches
them at the current time, waits for the batch to settle, then waits
TIME_WINDOW before the next pass.  The result lists each batch with its
dispatch time. -/
def drainBatches : List EmailItem → Nat → List (Nat × List EmailItem)
  | [], _ => []
  | [a], t => [(t, [a])]
  | a :: b :: rest, t =>
      (t, [a, b]) :: drainBatches rest (t + batchSettle [a, b] + TIME_WINDOW)

/-- Number of delivery calls in flight at instant u under a schedule: a
call dispatched at time s with effective duration d is in flight during
the half-open interval from s to s + d. -/
def inFlightAt (bs : List (Nat × List EmailItem)) (u : Nat) : Nat :=
  (bs.map (fun b =>
    (b.2.filter (fun it => decide (b.1 ≤ u ∧ u < b.1 + effDur it))).length)).sum

/-- Instant by which every delivery call of the schedule has settled: the
maximum over batches of dispatch time plus batch settle time. -/
def settleAllTime (bs : List (Nat × List EmailItem)) : Nat :=
  bs.foldr (fun b m => max (b.1 + batchSettle b.2) m) 0

/-- Handle resolutions performed by a full drain of the queue in
emailUtils.js.  The batch callback at line 44 is
item => sendEmailDirect(item.email, item.subject, item.htmlContent,
item.metadata): it computes the delivery results but never invokes the
stored item.resolve or item.reject callbacks, so no pass resolves any
handle; the results of the batch are dropped.  The recursion mirrors
drainBatches. -/
def drainResolutions : List EmailItem → List (String × SendOutcome)
  | [] => []
  | [a] =>
      let results := [a].map sendEmailDirectModel
      (fun _ => ([] : List (String × SendOutcome))) results
  | a :: b :: rest =>
      let results := [a, b].map sendEmailDirectModel
      (fun _ => ([] : List (String × SendOutcome))) results
        ++ drainResolutions rest

/-- Handle resolutions performed by the legacy SendGrid variant of the
queue (the unnamed emailUtils variant, lines 44-55): there the batch
callback awaits sendEmailDirect and then calls item.resolve(result), so a
full drain resolves every task's handle with its delivery result. -/
def drainResolutionsLegacy : List EmailItem → List (String × SendOutcome)
  | [] => []
  | [a] => [(a.email, (sendEmailDirectModel a).1)]
  | a :: b :: rest =>
      [(a.email, (sendEmailDirectModel a).1), (b.email, (sendEmailDirectModel b).1)]
        ++ drainResolutionsLegacy rest

/-- Results of the delivery calls of one batch, in batch order: every task
gets a result because sendEmailDirect never throws (it catches and returns
an error object). -/
def processBatchResults (batch : List EmailItem) : List SendOutcome :=
  batch.map (fun it => (sendEmailDirectModel it).1)

/-- The example queue used by the witnesses: three valid tasks with
delivery durations 5, 3 and 7 milliseconds. -/
def exampleQueue : List EmailItem :=
  [⟨"jobs@example.eu", 5, false⟩, ⟨"hr@example.eu", 3, false⟩, ⟨"press@example.eu", 7, true⟩]

/-! ### Slug generation (euractivJobs.js 55-68, jobsin.js 50-59, Job.js) -/

/-- Replace every maximal run of characters satisfying p by the single
character r, keeping everything else; the Boolean argument records whether
the previous character was part of a run.  Used to model the global
regex replacements of a whitespace run by a hyphen and of a hyphen run by
a hyphen. -/
def collapseRunsAux (p : Char → Bool) (r : Char) : Bool → List Char → List Char
  | _, [] => []
  | inRun, c :: cs =>
      if p c then
        if inRun then collapseRunsAux p r true cs
        else r :: collapseRunsAux p r true cs
      else c :: collapseRunsAux p r false cs

/-- Replace every maximal run of characters satisfying p by the single
character r. -/
def collapseRuns (p : Char → Bool) (r : Char) (l : List Char) : List Char :=
  collapseRunsAux p r false l

/-- The processString / process helper shared by every generateSlug in the
repository: lower-case, delete every character that is not a word
character, whitespace or hyphen, replace each whitespace run by a single
hyphen, collapse hyphen runs, then trim. -/
def processString (s : String) : String :=
  let lowered := s.data.map jsToLower
  let filtered := lowered.filter (fun c => isWordChar c || isJsSpace c || c = '-')
  let hyphened := collapseRuns isJsSpace '-' filtered
  let collapsed := collapseRuns (fun c => c = '-') '-' hyphened
  jsTrim (String.mk collapsed)

/-- generateSlug of euractivJobs.js (lines 55-68) and Job.js: the processed
title and company fall back to untitled and unknown-company when the
processed string is empty, and the last six characters of the id are
appended verbatim. -/
def generateSlugEuractiv (title companyName id : String) : String :=
  let titleSlug := if processString title = "" then "untitled" else processString title
  let companySlug :=
    if processString companyName = "" then "unknown-company" else processString companyName
  titleSlug ++ "-at-" ++ companySlug ++ "-" ++ jsSliceLast6 id

/-- generateSlug of jobsin.js (lines 50-59) and eu.js: the same processing
pipeline but without any fallback for an empty processed title or
company. -/
def generateSlugStoryblok (title company id : String) : String :=
  processString title ++ "-at-" ++ processString company ++ "-" ++ jsSliceLast6 id

/-- Character set the specification claims for slugs: lower-case ASCII
letters, digits and hyphen. -/
def isClaimSlugChar (c : Char) : Bool :=
  (97 ≤ c.toNat && c.toNat ≤ 122) || (48 ≤ c.toNat && c.toNat ≤ 57) || c.toNat = 45

/-- Character set the slug pipeline actually produces from title and
company: lower-case ASCII letters, digits, underscore and hyphen (the
word-character class of the deletion step keeps the underscore). -/
def isSlugChar (c : Char) : Bool :=
  (97 ≤ c.toNat && c.toNat ≤ 122) || (48 ≤ c.toNat && c.toNat ≤ 57) ||
  c.toNat = 95 || c.toNat = 45

/-! ### Seniority classification -/

/-- Seniority classification of euractivJobs.js (lines 209-213), also used
verbatim by eu.js and the EPSO variants: case-insensitive substring checks
for intern, junior, senior on the title, in that order, defaulting to
mid-level. -/
def seniorityEuractiv (title : String) : String :=
  let lowered := jsToLowerStr title
  if jsIncludes lowered "intern" then "intern"
  else if jsIncludes lowered "junior" then "junior"
  else if jsIncludes lowered "senior" then "senior"
  else "mid-level"

/-- Seniority classification of the Storyblok adapter jobsin.js (lines
399-408): internship, intern or trainee; then junior or assistant; then
senior, manager or lead; else mid-level.  All checks are case-insensitive
substring checks on the title. -/
def seniorityStoryblok (title : String) : String :=
  let lowered := jsToLowerStr title
  if jsIncludes lowered "internship" || jsIncludes lowered "intern" ||
      jsIncludes lowered "trainee" then "intern"
  else if jsIncludes lowered "junior" || jsIncludes lowered "assistant" then "junior"
  else if jsIncludes lowered "senior" || jsIncludes lowered "manager" ||
      jsIncludes lowered "lead" then "senior"
  else "mid-level"

/-- The four seniority tiers enumerated by the JobSchema. -/
def seniorityTiers : List String :=
  ["intern", "junior", "mid-level", "senior"]

/-! ### Location splitting -/

/-- Location handling of the Storyblok adapter jobsin.js (lines 369-376):
when the location string is non-empty and contains a comma, the
comma-separated segments are trimmed and the city is the first segment,
the country the last; otherwise the whole string is the city and the
country is empty. -/
def storyblokLocationSplit (location : String) : String × String :=
  if location ≠ "" ∧ jsIncludes location "," = true then
    let parts := (jsSplitComma location).map jsTrim
    (parts.headD "", parts.getLastD "")
  else (location, "")

/-- Location handling of euractivJobs.js (lines 226-230): the record's city
and country fields are both set to the raw scraped location string, with no
split at all. -/
def euractivCityCountry (location : String) : String × String :=
  (location, location)

/-- Location handling of the RSS adapter (unnamed part 004, line 234):
array destructuring of the comma-split takes the first segment as city and
the second segment (not the last) as country, both defaulting to the empty
string. -/
def rssLocationSplit (locationStr : String) : String × String :=
  let parts := (jsSplitComma locationStr).map jsTrim
  (parts.headD "", (parts.drop 1).headD "")

/-! ### Record timestamps -/

/-- Thirty days in milliseconds, the default listing lifetime. -/
def THIRTY_DAYS_MS : Int := 30 * 86400000

/-- A scraped EPSO row: the published datetime attribute and the optional
deadline datetime attribute, as epoch milliseconds. -/
structure EpsoRow where
  published : Int
  deadline : Option Int
deriving DecidableEq, Repr

/-- createdAt and expiresOn of a record built by eu.js (lines 98-121) and
the EPSO variants: createdAt is the scraped published date and expiresOn is
the scraped deadline when present, else thirty days from now. -/
def epsoRecordTimes (now : Int) (j : EpsoRow) : Int × Int :=
  (j.published, match j.deadline with | some d => d | none => now + THIRTY_DAYS_MS)

/-- createdAt and expiresOn of a record built by euractivJobs.js (lines
234-236): both stamped from the current time, expiresOn thirty days
later. -/
def euractivRecordTimes (now : Int) : Int × Int :=
  (now, now + THIRTY_DAYS_MS)

/-- createdAt and expiresOn computed by jobsin.js (lines 349-360):
createdAt is the story's created_at metadata when present, else now;
expiresOn is the first of expiry, paidUntil, deadline and
application_deadline when any is present, else thirty days from now. -/
def storyblokRecordTimes (now : Int) (expiryChain : Option Int)
    (createdMeta : Option Int) : Int × Int :=
  (createdMeta.getD now, expiryChain.getD (now + THIRTY_DAYS_MS))

/-! ### Euractiv deduplication (importJobsFromEuractiv, euractivJobs.js 144-301)

The adapter seeds an in-memory set from the projection of relativeLink over
all stored records, skips a candidate whose normalized key is in the set,
and otherwise saves; the sparse unique index of JobSchema (Job.js lines
299-300) makes the save fail with error code 11000 when the key is already
stored, which the adapter catches and treats as a duplicate, leaving both
the store and the set unchanged.  After a successful save the key is added
to the set (line 245).  A record is abstracted to its relativeLink key. -/

/-- normalizeLink of euractivJobs.js (lines 51-53): cut the query string
and remove one trailing slash. -/
def normalizeLink (link : String) : String :=
  let noQuery := link.data.takeWhile (fun c => c ≠ '?')
  String.mk (match noQuery.getLast? with
    | some '/' => noQuery.dropLast
    | _ => noQuery)

/-- In-memory state of one Euractiv run: the existingLinks set and the
store contents, both as lists of relativeLink keys. -/
structure EurState where
  existingLinks : List String
  store : List String
deriving DecidableEq, Repr

/-- Processing one table row: a missing href is skipped; a key found in the
in-memory set is skipped; a save that collides with a stored key raises the
unique-index error 11000, is caught, and changes nothing; a successful save
appends the record and immediately adds the key to the set. -/
def eurStep (st : EurState) (rawLink : Option String) : EurState :=
  match rawLink with
  | none => st
  | some raw =>
      let key := normalizeLink raw
      if st.existingLinks.contains key then st
      else if st.store.contains key then st
      else ⟨key :: st.existingLinks, st.store ++ [key]⟩

/-- One adapter run over a list of candidate raw links. -/
def eurRun (st : EurState) (cands : List (Option String)) : EurState :=
  cands.foldl eurStep st

/-- Run start: the existingLinks set is seeded from the store's
relativeLink projection (euractivJobs.js lines 162-164). -/
def seedFromStore (store : List String) : EurState :=
  ⟨store, store⟩

/-- The store contents after a sequence of adapter runs, each freshly
seeding its in-memory set from the store. -/
def eurRunsStore (store : List String) (runs : List (List (Option String))) : List String :=
  runs.foldl (fun s r => (eurRun (seedFromStore s) r).store) store

/-! ### The Storyblok record-construction step (jobsin.js 265-511) -/

/-- Identifiers in scope at the new JobModel expression of
scrapeStoryblokJobs (jobsin.js line 423): the module-level bindings of
jobsin.js and the local const bindings of the function body and the
per-story loop up to that point. -/
def storyblokScope : List String :=
  ["EMAIL_PATTERN", "STORYBLOK_TOKEN", "BASE_LIST_URL", "BASE_DETAIL_URL",
   "mongoose", "axios", "uuidv4", "JobModel", "dbConnect", "sendEmail",
   "extractEmailsFromText", "generateJobsinEmailContent", "generateSlug",
   "getJobUUIDs", "getJobDetails", "extractTextFromStoryblok",
   "extractEmailFromText", "extractSalaryEstimate", "determineRemoteStatus",
   "scrapeStoryblokJobs", "stories", "stats", "story", "jobData", "fullJob",
   "meta", "title", "companyName", "applyLink", "exists", "description",
   "emails", "id", "slug", "deadline", "createdAt", "publishedAt",
   "location", "city", "country", "contractType", "jobType", "seniority",
   "tags", "salary", "remote"]

/-- Identifiers read by the object literal passed to new JobModel in
scrapeStoryblokJobs (jobsin.js lines 423-450), in source order of first
use.  Line 440 reads the bare identifier contactEmail. -/
def newJobIdentifierRefs : List String :=
  ["mongoose", "title", "slug", "description", "companyName", "fullJob",
   "contractType", "tags", "remote", "jobType", "salary", "city", "country",
   "applyLink", "contactEmail", "createdAt", "deadline", "seniority",
   "JobModel", "meta"]

/-- Evaluating the new JobModel argument object: reading an identifier that
is not bound in the enclosing scope throws a ReferenceError. -/
def evalNewJobModelCall : Except String Unit :=
  match newJobIdentifierRefs.find? (fun x => !(storyblokScope.contains x)) with
  | some x => .error ("ReferenceError: " ++ x ++ " is not defined")
  | none => .ok ()

/-- A Storyblok candidate as seen by the per-story loop: whether the detail
fetch returned content, and whether the duplicate query found an existing
record. -/
structure StoryCandidate where
  hasContent : Bool
  isDup : Bool
deriving DecidableEq, Repr

/-- Outcome of processing one story. -/
inductive StoryOutcome where
  | errorMissingContent
  | skippedDuplicate
  | referenceErrored
  | savedRecord
deriving DecidableEq, Repr

/-- Per-story control flow of scrapeStoryblokJobs: missing content is
counted as an error (lines 290-294); a duplicate is skipped (lines
323-332); otherwise record construction evaluates the new JobModel
argument, whose ReferenceError is caught by the per-candidate handler
(lines 496-499) and counted as an error; only a successful construction
and save would reach the email-sending branch (lines 457-491). -/
def processStory (c : StoryCandidate) : StoryOutcome :=
  if !c.hasContent then .errorMissingContent
  else if c.isDup then .skippedDuplicate
  else
    match evalNewJobModelCall with
    | .error _ => .referenceErrored
    | .ok _ => .savedRecord

/-- Run statistics of scrapeStoryblokJobs; emailBranchRuns counts how often
the email-sending branch is entered. -/
structure StoryStats where
  processed : Nat
  saved : Nat
  skipped : Nat
  errors : Nat
  emailBranchRuns : Nat
deriving DecidableEq, Repr

/-- Statistics update for one story. -/
def stepStory (s : StoryStats) (c : StoryCandidate) : StoryStats :=
  match processStory c with
  | .errorMissingContent =>
      { s with processed := s.processed + 1, errors := s.errors + 1 }
  | .skippedDuplicate =>
      { s with processed := s.processed + 1, skipped := s.skipped + 1 }
  | .referenceErrored =>
      { s with processed := s.processed + 1, errors := s.errors + 1 }
  | .savedRecord =>
      { s with
        processed := s.processed + 1
        saved := s.saved + 1
        emailBranchRuns := s.emailBranchRuns + 1 }

/-- A whole Storyblok adapter run over its list of stories. -/
def runStoryblok (cs : List StoryCandidate) : StoryStats :=
  cs.foldl stepStory ⟨0, 0, 0, 0, 0⟩

/-! ### Email extraction (extractEmailsFromText, emailUtils.js 132-138)

The extraction regular expression is
word-boundary, one or more of the local characters A-Za-z0-9._%+-, an at
sign, one or more of the domain characters A-Za-z0-9.-, a literal dot, two
or more characters of the class A-Z|a-z (which literally contains the pipe
character), word-boundary, applied globally.  The matcher below implements
exactly this pattern: greedy runs with backtracking over the position of
the final dot (rightmost first, because the domain run is greedy) and over
the length of the trailing run (longest first, minimum two). -/

/-- Local-part characters A-Za-z0-9._%+- of the extraction pattern. -/
def isLocalChar (c : Char) : Bool :=
  (65 ≤ c.toNat && c.toNat ≤ 90) || (97 ≤ c.toNat && c.toNat ≤ 122) ||
  (48 ≤ c.toNat && c.toNat ≤ 57) || c = '.' || c = '_' || c = '%' ||
  c = '+' || c = '-'

/-- Domain characters A-Za-z0-9.- of the extraction pattern. -/
def isDomainChar (c : Char) : Bool :=
  (65 ≤ c.toNat && c.toNat ≤ 90) || (97 ≤ c.toNat && c.toNat ≤ 122) ||
  (48 ≤ c.toNat && c.toNat ≤ 57) || c = '.' || c = '-'

/-- Characters of the trailing class A-Z|a-z of the extraction pattern:
ASCII letters and, literally, the pipe. -/
def isTldChar (c : Char) : Bool :=
  (65 ≤ c.toNat && c.toNat ≤ 90) || (97 ≤ c.toNat && c.toNat ≤ 122) || c = '|'

/-- Word boundary after a consumed character: the word-ness of the last
consumed character differs from that of the next character, or the input
ends after a word character. -/
def boundaryAfter (lastc : Char) (rest : List Char) : Bool :=
  match rest with
  | [] => isWordChar lastc
  | c :: _ => isWordChar lastc != isWordChar c

/-- Backtracking over the length of the trailing run: try length k first,
then shorter lengths down to the minimum two, accepting the first length
whose end sits on a word boundary.  Returns the consumed run and the
remainder. -/
def tldBacktrack (full : List Char) (k : Nat) : Option (List Char × List Char) :=
  match k with
  | 0 => none
  | 1 => none
  | n + 2 =>
      let consumed := full.take (n + 2)
      let rest := full.drop (n + 2)
      match consumed.getLast? with
      | none => none
      | some lastc =>
          if consumed.length = n + 2 && boundaryAfter lastc rest then some (consumed, rest)
          else tldBacktrack full (n + 1)

/-- All ways to split the list at a dot, rightmost dot first: each entry is
the part before the dot and the part after it. -/
def dotSplitsAux (seenRev : List Char) (rest : List Char) : List (List Char × List Char) :=
  match rest with
  | [] => []
  | c :: tl =>
      let later := dotSplitsAux (c :: seenRev) tl
      if c = '.' then later ++ [(seenRev.reverse, tl)] else later

/-- Try the dot positions of the greedy domain run, rightmost first: the
part before the dot must be non-empty (the domain run needs at least one
character), and the trailing run after the dot may extend past the domain
run into the rest of the input. -/
def tryDotSplits (splits : List (List Char × List Char)) (rest3 : List Char) :
    Option (List Char × List Char × List Char) :=
  match splits with
  | [] => none
  | (d1, after) :: more =>
      if d1.isEmpty then tryDotSplits more rest3
      else
        let full := after ++ rest3
        match tldBacktrack full (full.takeWhile isTldChar).length with
        | some (consumed, rem) => some (d1, consumed, rem)
        | none => tryDotSplits more rest3

/-- Try to match the extraction pattern at the start of cs, given whether
the character before cs is a word character.  Returns the matched
characters and the remainder on success. -/
def matchEmailAt (prevWord : Bool) (cs : List Char) : Option (List Char × List Char) :=
  match cs with
  | [] => none
  | c :: _ =>
      if prevWord == isWordChar c then none
      else
        let lpart := cs.takeWhile isLocalChar
        let rest1 := cs.dropWhile isLocalChar
        if lpart.isEmpty then none
        else
          match rest1 with
          | '@' :: rest2 =>
              let dom := rest2.takeWhile isDomainChar
              let rest3 := rest2.dropWhile isDomainChar
              match tryDotSplits (dotSplitsAux [] dom) rest3 with
              | some (d1, tld, rem) => some (lpart ++ '@' :: (d1 ++ '.' :: tld), rem)
              | none => none
          | _ => none

/-- Global scan: try to match at every position from left to right,
restarting after the end of each match, exactly like a global regex match.
The fuel argument bounds the recursion and is instantiated with the input
length plus one. -/
def scanEmails (prevWord : Bool) (cs : List Char) : Nat → List (List Char)
  | 0 => []
  | fuel + 1 =>
      match cs with
      | [] => []
      | c :: tl =>
          match matchEmailAt prevWord cs with
          | some (m, rem) => m :: scanEmails (isWordChar (m.getLastD c)) rem fuel
          | none => scanEmails (isWordChar c) tl fuel

/-- extractEmailsFromText (emailUtils.js lines 132-138): a falsy text gives
the empty list, otherwise the global matches of the extraction pattern in
order, or the empty list when there is none.  No deduplication is
performed here. -/
def extractEmailsFromText (text : String) : List String :=
  if text = "" then []
  else (scanEmails false text.data (text.data.length + 1)).map String.mk

/-- JavaScript Set insertion order semantics, as used by the spread of a
Set in fetchJobDescription (euractivJobs.js line 136): keep the first
occurrence of each element, in order. -/
def jsSetDedupAux (seen : List String) : List String → List String
  | [] => []
  | a :: tl =>
      if seen.contains a then jsSetDedupAux seen tl
      else a :: jsSetDedupAux (a :: seen) tl

/-- Spreading new Set(l) into an array: first occurrences in order. -/
def jsSetDedup (l : List String) : List String :=
  jsSetDedupAux [] l

/-! ### Facts about the drain schedule -/

theorem effDur_le_batchSettle {it : EmailItem} {b : List EmailItem} (h : it ∈ b) :
    effDur it ≤ batchSettle b := by
  induction b with
  | nil => cases h
  | cons a tl ih =>
      rcases List.mem_cons.mp h with rfl | h2
      · exact le_max_left _ _
      · exact le_trans (ih h2) (le_max_right _ _)

theorem drainBatches_batch_le (q : List EmailItem) (t : Nat) :
    ∀ b ∈ drainBatches q t, b.2.length ≤ REQUEST_LIMIT := by
  induction q, t using drainBatches.induct with
  | case1 t => intro b hb; cases hb
  | case2 a t => intro b hb; simp [drainBatches] at hb; subst hb; simp [REQUEST_LIMIT]
  | case3 a c rest t ih =>
      intro b hb
      simp only [drainBatches, List.mem_cons] at hb
      rcases hb with rfl | hb
      · simp [REQUEST_LIMIT]
      · exact ih b hb

theorem drainBatches_start_le (q : List EmailItem) (t : Nat) :
    ∀ b ∈ drainBatches q t, t ≤ b.1 := by
  induction q, t using drainBatches.induct with
  | case1 t => intro b hb; cases hb
  | case2 a t => intro b hb; simp [drainBatches] at hb; subst hb; exact le_refl t
  | case3 a c rest t ih =>
      intro b hb
      simp only [drainBatches, List.mem_cons] at hb
      rcases hb with rfl | hb
      · exact le_refl t
      · exact le_trans (by omega) (ih b hb)

theorem inFlightAt_eq_zero_of_lt (bs : List (Nat × List EmailItem)) (u : Nat)
    (h : ∀ b ∈ bs, u < b.1) : inFlightAt bs u = 0 := by
  induction bs with
  | nil => rfl
  | cons b tl ih =>
      have hb := h b (List.mem_cons_self _ _)
      simp only [inFlightAt, List.map_cons, List.sum_cons]
      have hfilter : b.2.filter (fun it => decide (b.1 ≤ u ∧ u < b.1 + effDur it)) = [] := by
        apply List.filter_eq_nil_iff.mpr
        intro it _
        simp only [decide_eq_true_eq, not_and]
        intro hle
        omega
      rw [hfilter]
      simpa [inFlightAt] using ih (fun x hx => h x (List.mem_cons_of_mem _ hx))

theorem inFlightAt_drainBatches_le (q : List EmailItem) (t : Nat) (u : Nat) :
    inFlightAt (drainBatches q t) u ≤ REQUEST_LIMIT := by
  induction q, t using drainBatches.induct generalizing u with
  | case1 t => simp [drainBatches, inFlightAt, REQUEST_LIMIT]
  | case2 a t =>
      simp only [drainBatches, inFlightAt, List.map_cons, List.map_nil, List.sum_cons,
        List.sum_nil]
      have := List.length_filter_le
        (fun it => decide (t ≤ u ∧ u < t + effDur it)) [a]
      simp only [List.length_cons, List.length_nil] at this
      simp only [REQUEST_LIMIT]
      omega
  | case3 a c rest t ih =>
      simp only [drainBatches, inFlightAt, List.map_cons, List.sum_cons]
      by_cases hu : u < t + batchSettle [a, c] + TIME_WINDOW
      · have hzero : inFlightAt (drainBatches rest (t + batchSettle [a, c] + TIME_WINDOW)) u = 0 := by
          apply inFlightAt_eq_zero_of_lt
          intro b hb
          have := drainBatches_start_le _ _ b hb
          omega
        simp only [inFlightAt] at hzero
        rw [hzero]
        have := List.length_filter_le
          (fun it => decide (t ≤ u ∧ u < t + effDur it)) [a, c]
        simp only [List.length_cons, List.length_nil] at this
        simp only [REQUEST_LIMIT]
        omega
      · have hfilter : ([a, c].filter (fun it => decide (t ≤ u ∧ u < t + effDur it))) = [] := by
          apply List.filter_eq_nil_iff.mpr
          intro it hit
          simp only [decide_eq_true_eq, not_and]
          intro hle
          have := effDur_le_batchSettle hit
          omega
        rw [hfilter]
        simpa [inFlightAt] using ih u

theorem settleAllTime_drainBatches_ge (q : List EmailItem) (t : Nat) (hq : q ≠ []) :
    t + ((q.length + 1) / 2 - 1) * TIME_WINDOW ≤ settleAllTime (drainBatches q t) := by
  induction q, t using drainBatches.induct with
  | case1 t => exact absurd rfl hq
  | case2 a t =>
      simp only [drainBatches, settleAllTime, List.foldr_cons, List.foldr_nil,
        List.length_cons, List.length_nil]
      simp [TIME_WINDOW]
  | case3 a c rest t ih =>
      by_cases hr : rest = []
      · subst hr
        simp only [drainBatches, settleAllTime, List.foldr_cons, List.foldr_nil,
          List.length_cons, List.length_nil]
        simp [TIME_WINDOW]
      · have hih := ih hr
        simp only [drainBatches, settleAllTime, List.foldr_cons, List.length_cons]
        simp only [settleAllTime] at hih
        have hmax : settleAllTime (drainBatches rest (t + batchSettle [a, c] + TIME_WINDOW)) ≤
            max (t + batchSettle [a, c])
              ((drainBatches rest (t + batchSettle [a, c] + TIME_WINDOW)).foldr
                (fun b m => max (b.1 + batchSettle b.2) m) 0) := by
          simp only [settleAllTime]
          exact le_max_right _ _
        simp only [settleAllTime] at hmax
        have hlen : rest.length ≠ 0 := by
          intro h0
          exact hr (List.length_eq_zero.mp h0)
        simp only [TIME_WINDOW] at hih ⊢
        omega

/-- Batches of a drain schedule partition the queue in order: concatenating
the batches gives back exactly the enqueued tasks.  Batch membership is
purely positional and ignores the validity of the addresses. -/
theorem drainBatches_flatten (q : List EmailItem) (t : Nat) :
    (drainBatches q t).foldr (fun b acc => b.2 ++ acc) [] = q := by
  induction q, t using drainBatches.induct with
  | case1 t => rfl
  | case2 a t => rfl
  | case3 a c rest t ih =>
      simp only [drainBatches, List.foldr_cons]
      rw [ih]
      rfl

/-! ## Claim C2: the rate-limited drain -/

/-- C2 (amended): the drain of processEmailQueue removes at most
REQUEST_LIMIT (2) tasks per pass, keeps at most 2 delivery calls in flight
at any instant, and the instant by which all delivery calls of the N
enqueued tasks have settled is at least ceil(N/2 - 1) * TIME_WINDOW
milliseconds after the drain starts (for N at least 1, (N+1)/2 - 1 in
natural-number arithmetic equals ceil(N/2 - 1)).  The claim as frozen
speaks of the time at which all N handles are resolved; the handles are
never resolved (see the C2 counterexample and C3), so the bound is stated
for the settling of the delivery calls. -/
theorem email_queue_rate_limit (q : List EmailItem) (t : Nat) (hq : q ≠ []) :
    (∀ b ∈ drainBatches q t, b.2.length ≤ REQUEST_LIMIT) ∧
    (∀ u, inFlightAt (drainBatches q t) u ≤ REQUEST_LIMIT) ∧
    t + ((q.length + 1) / 2 - 1) * TIME_WINDOW ≤ settleAllTime (drainBatches q t) :=
  ⟨drainBatches_batch_le q t, fun u => inFlightAt_drainBatches_le q t u,
   settleAllTime_drainBatches_ge q t hq⟩

/-- C2 witness: the bound instantiated on a concrete three-task queue. -/
theorem email_queue_rate_limit_witness :
    inFlightAt (drainBatches exampleQueue 0) 4 ≤ REQUEST_LIMIT ∧
    0 + ((exampleQueue.length + 1) / 2 - 1) * TIME_WINDOW ≤
      settleAllTime (drainBatches exampleQueue 0) :=
  ⟨(email_queue_rate_limit exampleQueue 0 (by decide)).2.1 4,
   (email_queue_rate_limit exampleQueue 0 (by decide)).2.2⟩

/-- C2 counterexample: the claim's event, resolving all N handles, never
happens: a complete drain of a two-task queue performs no handle
resolution at all, so it is not the case that every enqueued task's handle
is among the resolved ones. -/
theorem email_queue_handles_cex :
    drainResolutions
      [⟨"jobs@example.eu", 0, false⟩, ⟨"hr@example.eu", 0, false⟩] = [] ∧
    ¬ (∀ it ∈ ([⟨"jobs@example.eu", 0, false⟩, ⟨"hr@example.eu", 0, false⟩] :
          List EmailItem),
        it.email ∈ (drainResolutions
          [⟨"jobs@example.eu", 0, false⟩, ⟨"hr@example.eu", 0, false⟩]).map Prod.fst) := by
  decide

/-! ## Claim C3: task handles are never settled -/

/-- C3 (code_bug): sendEmail stores the resolve and reject callbacks with
every queued task and its own doc comment promises that the returned
promise will be resolved when the email is sent, but the batch callback of
processEmailQueue only calls sendEmailDirect and discards the results: a
complete drain of a single valid task resolves no handle, while the legacy
SendGrid variant of the same queue resolves it with the delivery result.
A failing task does not block its batch sibling, which still gets its own
delivery result, for both an invalid address and a transport exception. -/
theorem sendEmail_handle_never_settled :
    drainResolutions [⟨"hr@example.eu", 0, false⟩] = [] ∧
    drainResolutionsLegacy [⟨"hr@example.eu", 0, false⟩] =
      [("hr@example.eu", SendOutcome.ok)] ∧
    processBatchResults [⟨"bad-address", 0, false⟩, ⟨"ok@example.eu", 0, false⟩] =
      [SendOutcome.err "Invalid email address", SendOutcome.ok] ∧
    processBatchResults [⟨"a@b.eu", 0, true⟩, ⟨"c@d.eu", 0, false⟩] =
      [SendOutcome.err "transport error", SendOutcome.ok] := by
  decide

/-! ## Claim C4: invalid addresses and rate-limit slots -/

/-- C4 (amended): an address lacking an at sign is rejected by
sendEmailDirect with the error result Invalid email address and without
any transport call, but the task still occupies one of the REQUEST_LIMIT
positional slots of its dispatch batch: the batches partition the queue in
order regardless of address validity, so an invalid task can push a valid
sibling into a later batch. -/
theorem invalid_address_no_transport (q : List EmailItem) (t : Nat)
    (it : EmailItem) (h : hasAtSign it.email = false) :
    sendEmailDirectModel it = (SendOutcome.err "Invalid email address", false) ∧
    (drainBatches q t).foldr (fun b acc => b.2 ++ acc) [] = q := by
  constructor
  · simp [sendEmailDirectModel, h]
  · exact drainBatches_flatten q t

/-- C4 witness: instantiation on a concrete invalid address and the
example queue. -/
theorem invalid_address_no_transport_witness :
    sendEmailDirectModel ⟨"not-an-address", 3, false⟩ =
      (SendOutcome.err "Invalid email address", false) ∧
    (drainBatches exampleQueue 0).foldr (fun b acc => b.2 ++ acc) [] = exampleQueue :=
  invalid_address_no_transport exampleQueue 0 ⟨"not-an-address", 3, false⟩ (by decide)

/-- C4 counterexample: with the queue [invalid, a, b] the invalid task
occupies the first slot of the first batch, and the valid task b is
dispatched only at 1000 ms; without the invalid task, b is dispatched at
0 ms inside the first batch.  The rejection therefore does consume a
rate-limit slot and does delay a valid sibling. -/
theorem invalid_address_slot_cex :
    drainBatches [⟨"not-an-address", 0, false⟩, ⟨"a@example.eu", 0, false⟩,
        ⟨"b@example.eu", 0, false⟩] 0 =
      [(0, [⟨"not-an-address", 0, false⟩, ⟨"a@example.eu", 0, false⟩]),
       (1000, [⟨"b@example.eu", 0, false⟩])] ∧
    drainBatches [⟨"a@example.eu", 0, false⟩, ⟨"b@example.eu", 0, false⟩] 0 =
      [(0, [⟨"a@example.eu", 0, false⟩, ⟨"b@example.eu", 0, false⟩])] := by
  decide

theorem charOfNat_toNat_small : ∀ n < 123, (Char.ofNat n).toNat = n := by decide

theorem jsToLower_not_upper (c : Char) :
    ¬ (65 ≤ (jsToLower c).toNat ∧ (jsToLower c).toNat ≤ 90) := by
  unfold jsToLower
  split
  · next hc =>
      simp only [Bool.and_eq_true, decide_eq_true_eq] at hc
      rw [charOfNat_toNat_small (c.toNat + 32) (by omega)]
      omega
  · next hc =>
      simp only [Bool.and_eq_true, decide_eq_true_eq] at hc
      omega

theorem kept_char_charset (c : Char)
    (h : (isWordChar (jsToLower c) || isJsSpace (jsToLower c) ||
          decide (jsToLower c = '-')) = true) :
    (isSlugChar (jsToLower c) || isJsSpace (jsToLower c)) = true := by
  have hnu := jsToLower_not_upper c
  revert h hnu
  generalize jsToLower c = d
  intro h hnu
  simp only [isWordChar, isSlugChar, isJsSpace, Bool.or_eq_true, Bool.and_eq_true,
    decide_eq_true_eq] at h ⊢
  rcases h with (hw | hs) | hd
  · omega
  · omega
  · subst hd
    decide

theorem filtered_charset (s : String) :
    ∀ ch ∈ (s.data.map jsToLower).filter
        (fun c => isWordChar c || isJsSpace c || c = '-'),
      (isSlugChar ch || isJsSpace ch) = true := by
  intro ch hch
  rcases List.mem_filter.mp hch with ⟨hmem, hkeep⟩
  rcases List.mem_map.mp hmem with ⟨c, _, rfl⟩
  exact kept_char_charset c hkeep

theorem collapseRunsAux_charset (p : Char → Bool) (b : Bool) (l : List Char)
    (h : ∀ ch ∈ l, (isSlugChar ch || p ch) = true) :
    ∀ ch ∈ collapseRunsAux p '-' b l, isSlugChar ch = true := by
  induction l generalizing b with
  | nil => intro ch hch; cases hch
  | cons c cs ih =>
      have htail : ∀ ch ∈ cs, (isSlugChar ch || p ch) = true :=
        fun x hx => h x (List.mem_cons_of_mem _ hx)
      intro ch hch
      simp only [collapseRunsAux] at hch
      by_cases hc : p c = true
      · rw [if_pos hc] at hch
        cases b with
        | true =>
            simp only [if_pos rfl] at hch
            exact ih true htail ch hch
        | false =>
            simp only [Bool.false_eq_true, if_false] at hch
            rcases List.mem_cons.mp hch with rfl | hch2
            · decide
            · exact ih true htail ch hch2
      · rw [if_neg hc] at hch
        rcases List.mem_cons.mp hch with rfl | hch2
        · have hcc := h ch (List.mem_cons_self _ _)
          rw [Bool.or_eq_true] at hcc
          rcases hcc with h1 | h2
          · exact h1
          · exact absurd h2 hc
        · exact ih false htail ch hch2

theorem jsTrim_mem (s : String) : ∀ ch ∈ (jsTrim s).data, ch ∈ s.data := by
  intro ch hch
  simp only [jsTrim] at hch
  have h1 := List.mem_reverse.mp hch
  have h2 := (List.dropWhile_sublist _).mem h1
  have h3 := List.mem_reverse.mp h2
  exact (List.dropWhile_sublist _).mem h3

theorem processString_charset (s : String) :
    ∀ ch ∈ (processString s).data, isSlugChar ch = true := by
  intro ch hch
  have h1 := jsTrim_mem _ ch hch
  apply collapseRunsAux_charset (fun c => decide (c = '-')) false _ _ ch h1
  intro x hx
  have h2 := collapseRunsAux_charset isJsSpace false _ (filtered_charset s) x hx
  simp only [h2, Bool.true_or]

theorem mem_all_slugChar {l : List Char} (hall : l.all isSlugChar = true)
    {ch : Char} (h : ch ∈ l) : isSlugChar ch = true :=
  List.all_eq_true.mp hall ch h

theorem generateSlug_spec (t c i : String) :
    (∀ t2 c2 i2, t2 = t → c2 = c → i2 = i →
        generateSlugEuractiv t2 c2 i2 = generateSlugEuractiv t c i) ∧
    generateSlugEuractiv t c i =
      (if processString t = "" then "untitled" else processString t) ++ "-at-" ++
      (if processString c = "" then "unknown-company" else processString c) ++ "-" ++
      jsSliceLast6 i ∧
    (∀ ch ∈ (generateSlugEuractiv t c i).data, isSlugChar ch = true ∨ ch ∈ i.data) ∧
    (∀ ch ∈ (generateSlugStoryblok t c i).data, isSlugChar ch = true ∨ ch ∈ i.data) := by
  refine ⟨?_, rfl, ?_, ?_⟩
  · intro t2 c2 i2 h1 h2 h3
    rw [h1, h2, h3]
  · intro ch hch
    simp only [generateSlugEuractiv, String.data_append] at hch
    simp only [List.mem_append] at hch
    rcases hch with ((((hch | hch) | hch) | hch) | hch)
    · by_cases ht : processString t = ""
      · rw [if_pos ht] at hch
        exact Or.inl (mem_all_slugChar (by decide) hch)
      · rw [if_neg ht] at hch
        exact Or.inl (processString_charset t ch hch)
    · exact Or.inl (mem_all_slugChar (by decide) hch)
    · by_cases hc : processString c = ""
      · rw [if_pos hc] at hch
        exact Or.inl (mem_all_slugChar (by decide) hch)
      · rw [if_neg hc] at hch
        exact Or.inl (processString_charset c ch hch)
    · exact Or.inl (mem_all_slugChar (by decide) hch)
    · exact Or.inr ((List.drop_sublist _ _).mem hch)
  · intro ch hch
    simp only [generateSlugStoryblok, String.data_append] at hch
    simp only [List.mem_append] at hch
    rcases hch with ((((hch | hch) | hch) | hch) | hch)
    · exact Or.inl (processString_charset t ch hch)
    · exact Or.inl (mem_all_slugChar (by decide) hch)
    · exact Or.inl (processString_charset c ch hch)
    · exact Or.inl (mem_all_slugChar (by decide) hch)
    · exact Or.inr ((List.drop_sublist _ _).mem hch)

theorem generateSlug_spec_witness :
    generateSlugEuractiv "Senior Policy Officer" "ACME" "abcd-1234-ef56" =
      (if processString "Senior Policy Officer" = "" then "untitled"
        else processString "Senior Policy Officer") ++ "-at-" ++
      (if processString "ACME" = "" then "unknown-company"
        else processString "ACME") ++ "-" ++ jsSliceLast6 "abcd-1234-ef56" ∧
    (isSlugChar 's' = true ∨ 's' ∈ ("abcd-1234-ef56" : String).data) :=
  ⟨(generateSlug_spec "Senior Policy Officer" "ACME" "abcd-1234-ef56").2.1,
   (generateSlug_spec "Senior Policy Officer" "ACME" "abcd-1234-ef56").2.2.1 's' (by decide)⟩

theorem generateSlug_charset_cex :
    generateSlugEuractiv "a_b" "c" "123456" = "a_b-at-c-123456" ∧
    '_' ∈ (generateSlugEuractiv "a_b" "c" "123456").data ∧
    isClaimSlugChar '_' = false ∧
    generateSlugStoryblok "" "c" "123456" = "-at-c-123456" := by
  decide

theorem listIsPrefix_append (as bs l : List Char)
    (h : listIsPrefix (as ++ bs) l = true) : listIsPrefix as l = true := by
  induction as generalizing l with
  | nil => rfl
  | cons a tl ih =>
      cases l with
      | nil => simp [listIsPrefix] at h
      | cons b l2 =>
          simp only [List.cons_append, listIsPrefix, Bool.and_eq_true] at h ⊢
          exact ⟨h.1, ih l2 h.2⟩

theorem containsSub_append (hay as bs : List Char)
    (h : containsSub hay (as ++ bs) = true) : containsSub hay as = true := by
  induction hay with
  | nil =>
      cases as with
      | nil => rfl
      | cons a tl =>
          simp [containsSub, listIsPrefix] at h
  | cons c tl ih =>
      rw [containsSub, Bool.or_eq_true] at h ⊢
      rcases h with h | h
      · exact Or.inl (listIsPrefix_append as bs _ h)
      · exact Or.inr (ih h)

theorem seniority_total (title : String) :
    seniorityEuractiv title ∈ seniorityTiers ∧
    seniorityStoryblok title ∈ seniorityTiers ∧
    (jsIncludes (jsToLowerStr title) "trainee" = false →
     jsIncludes (jsToLowerStr title) "assistant" = false →
     jsIncludes (jsToLowerStr title) "manager" = false →
     jsIncludes (jsToLowerStr title) "lead" = false →
     seniorityStoryblok title = seniorityEuractiv title) := by
  refine ⟨?_, ?_, ?_⟩
  · simp only [seniorityEuractiv]
    split_ifs <;> simp [seniorityTiers]
  · simp only [seniorityStoryblok]
    split_ifs <;> simp [seniorityTiers]
  · intro h1 h2 h3 h4
    by_cases hint : jsIncludes (jsToLowerStr title) "intern" = true
    · simp [seniorityStoryblok, seniorityEuractiv, hint]
    · rw [Bool.not_eq_true] at hint
      have hship : jsIncludes (jsToLowerStr title) "internship" = false := by
        rw [Bool.eq_false_iff]
        intro hcon
        have hint2 := hint
        simp only [jsIncludes] at hcon hint2
        have h5 := containsSub_append (jsToLowerStr title).data
          ['i', 'n', 't', 'e', 'r', 'n'] ['s', 'h', 'i', 'p'] (by exact hcon)
        rw [hint2] at h5
        cases h5
      simp [seniorityStoryblok, seniorityEuractiv, hint, hship, h1, h2, h3, h4]

theorem seniority_total_witness :
    seniorityEuractiv "Policy Officer" ∈ seniorityTiers ∧
    seniorityStoryblok "Policy Officer" = seniorityEuractiv "Policy Officer" :=
  ⟨(seniority_total "Policy Officer").1,
   (seniority_total "Policy Officer").2.2 (by decide) (by decide) (by decide) (by decide)⟩

theorem seniority_order_cex :
    seniorityEuractiv "Trainee" = "mid-level" ∧
    seniorityStoryblok "Trainee" = "intern" ∧
    seniorityEuractiv "Trainee" ≠ seniorityStoryblok "Trainee" := by
  decide

theorem mem_jsSetDedupAux (l : List String) (seen : List String) (x : String) :
    x ∈ jsSetDedupAux seen l ↔ x ∈ l ∧ x ∉ seen := by
  induction l generalizing seen with
  | nil => simp [jsSetDedupAux]
  | cons a tl ih =>
      simp only [jsSetDedupAux]
      by_cases ha : seen.contains a = true
      · rw [if_pos ha]
        rw [ih]
        have ham : a ∈ seen := List.mem_of_elem_eq_true ha
        constructor
        · rintro ⟨h1, h2⟩
          exact ⟨List.mem_cons_of_mem _ h1, h2⟩
        · rintro ⟨h1, h2⟩
          rcases List.mem_cons.mp h1 with rfl | h3
          · exact absurd ham h2
          · exact ⟨h3, h2⟩
      · rw [if_neg ha]
        have ham : a ∉ seen := fun hm => ha (List.elem_eq_true_of_mem hm)
        constructor
        · intro h
          rcases List.mem_cons.mp h with rfl | h1
          · exact ⟨List.mem_cons_self _ _, ham⟩
          · have h2 := (ih (a :: seen)).mp h1
            exact ⟨List.mem_cons_of_mem _ h2.1, fun hs => h2.2 (List.mem_cons_of_mem _ hs)⟩
        · rintro ⟨h1, h2⟩
          rcases List.mem_cons.mp h1 with rfl | h3
          · exact List.mem_cons_self _ _
          · by_cases hxa : x = a
            · subst hxa
              exact List.mem_cons_self _ _
            · apply List.mem_cons_of_mem
              apply (ih (a :: seen)).mpr
              refine ⟨h3, fun hs => ?_⟩
              rcases List.mem_cons.mp hs with rfl | h4
              · exact hxa rfl
              · exact h2 h4

theorem nodup_jsSetDedupAux (l : List String) (seen : List String) :
    (jsSetDedupAux seen l).Nodup := by
  induction l generalizing seen with
  | nil => exact List.nodup_nil
  | cons a tl ih =>
      simp only [jsSetDedupAux]
      by_cases ha : seen.contains a = true
      · rw [if_pos ha]
        exact ih seen
      · rw [if_neg ha]
        refine List.Nodup.cons ?_ (ih (a :: seen))
        intro hmem
        have := (mem_jsSetDedupAux tl (a :: seen) a).mp hmem
        exact this.2 (List.mem_cons_self _ _)

theorem jsSetDedupAux_sublist (l : List String) (seen : List String) :
    (jsSetDedupAux seen l).Sublist l := by
  induction l generalizing seen with
  | nil => exact List.Sublist.refl _
  | cons a tl ih =>
      simp only [jsSetDedupAux]
      by_cases ha : seen.contains a = true
      · rw [if_pos ha]
        exact List.Sublist.cons a (ih seen)
      · rw [if_neg ha]
        exact List.Sublist.cons₂ a (ih (a :: seen))

theorem email_extraction_spec :
    extractEmailsFromText "Contact us at jobs@example.eu or hr@example.eu for details" =
      ["jobs@example.eu", "hr@example.eu"] ∧
    (∀ l a, (jsSetDedup l).count a ≤ 1) ∧
    (∀ l, (jsSetDedup l).Sublist l) ∧
    (∀ l a, a ∈ jsSetDedup l ↔ a ∈ l) := by
  refine ⟨by decide, ?_, ?_, ?_⟩
  · intro l a
    exact List.nodup_iff_count_le_one.mp (nodup_jsSetDedupAux l []) a
  · intro l
    exact jsSetDedupAux_sublist l []
  · intro l a
    rw [jsSetDedup, mem_jsSetDedupAux]
    simp

theorem email_extraction_dup_cex :
    extractEmailsFromText "Contact a@bb.ee a@bb.ee" = ["a@bb.ee", "a@bb.ee"] ∧
    (extractEmailsFromText "Contact a@bb.ee a@bb.ee").count "a@bb.ee" = 2 := by
  decide

theorem location_split_spec :
    storyblokLocationSplit "Brussels, Belgium" = ("Brussels", "Belgium") ∧
    storyblokLocationSplit "Brussels" = ("Brussels", "") ∧
    (∀ loc, jsIncludes loc "," = false → storyblokLocationSplit loc = (loc, "")) ∧
    (∀ loc, euractivCityCountry loc = (loc, loc)) ∧
    rssLocationSplit "Brussels, Belgium" = ("Brussels", "Belgium") ∧
    rssLocationSplit "Vienna, Austria, EU" = ("Vienna", "Austria") := by
  refine ⟨by decide, by decide, ?_, fun loc => rfl, by decide, by decide⟩
  intro loc h
  rw [storyblokLocationSplit, if_neg]
  rintro ⟨-, h2⟩
  rw [h] at h2
  cases h2

theorem location_split_spec_witness :
    storyblokLocationSplit "Rome" = ("Rome", "") :=
  location_split_spec.2.2.1 "Rome" (by decide)

theorem location_split_euractiv_cex :
    euractivCityCountry "Brussels, Belgium" = ("Brussels, Belgium", "Brussels, Belgium") ∧
    euractivCityCountry "Brussels, Belgium" ≠ ("Brussels", "Belgium") := by
  decide

theorem expiresOn_spec (now : Int) (j : EpsoRow) (expiryChain createdMeta : Option Int) :
    (j.deadline = none → (epsoRecordTimes now j).2 = now + THIRTY_DAYS_MS) ∧
    (j.deadline = none → j.published ≤ now →
        (epsoRecordTimes now j).1 < (epsoRecordTimes now j).2) ∧
    (euractivRecordTimes now).1 < (euractivRecordTimes now).2 ∧
    (expiryChain = none →
        (storyblokRecordTimes now expiryChain createdMeta).2 = now + THIRTY_DAYS_MS) := by
  refine ⟨?_, ?_, ?_, ?_⟩
  · intro h
    simp [epsoRecordTimes, h]
  · intro h hle
    simp only [epsoRecordTimes, h]
    simp only [THIRTY_DAYS_MS]
    omega
  · simp only [euractivRecordTimes, THIRTY_DAYS_MS]
    omega
  · intro h
    simp [storyblokRecordTimes, h]

theorem expiresOn_spec_witness :
    (epsoRecordTimes 1700000000000 ⟨1699999999999, none⟩).1 <
      (epsoRecordTimes 1700000000000 ⟨1699999999999, none⟩).2 ∧
    (storyblokRecordTimes 1700000000000 none (some 5)).2 =
      1700000000000 + THIRTY_DAYS_MS :=
  ⟨(expiresOn_spec 1700000000000 ⟨1699999999999, none⟩ none (some 5)).2.1 rfl (by decide),
   (expiresOn_spec 1700000000000 ⟨1699999999999, none⟩ none (some 5)).2.2.2 rfl⟩

theorem expiresOn_cex :
    epsoRecordTimes 1700000000000 ⟨1690000000000, some 0⟩ = (1690000000000, 0) ∧
    ¬ ((epsoRecordTimes 1700000000000 ⟨1690000000000, some 0⟩).1 <
       (epsoRecordTimes 1700000000000 ⟨1690000000000, some 0⟩).2) := by
  decide

theorem eurStep_count_le (st : EurState) (cand : Option String) (k : String)
    (h : st.store.count k ≤ 1) : ((eurStep st cand).store.count k ≤ 1) := by
  cases cand with
  | none => exact h
  | some raw =>
      simp only [eurStep]
      split_ifs with h1 h2
      · exact h
      · exact h
      · by_cases hk : k = normalizeLink raw
        · subst hk
          have hz : st.store.count (normalizeLink raw) = 0 := by
            rw [List.count_eq_zero]
            exact fun hm => h2 (List.elem_eq_true_of_mem hm)
          rw [List.count_append, hz]
          simp
        · have hz2 : List.count k [normalizeLink raw] = 0 := by
            rw [List.count_eq_zero]
            simp only [List.mem_singleton]
            exact hk
          rw [List.count_append, hz2]
          omega

theorem eurRun_count_le (cands : List (Option String)) (st : EurState) (k : String)
    (h : st.store.count k ≤ 1) : ((eurRun st cands).store.count k ≤ 1) := by
  induction cands generalizing st with
  | nil => exact h
  | cons c tl ih =>
      rw [eurRun, List.foldl_cons]
      exact ih (eurStep st c) (eurStep_count_le st c k h)

theorem eurRunsStore_count_le (runs : List (List (Option String)))
    (store : List String) (k : String) (h : store.count k ≤ 1) :
    (eurRunsStore store runs).count k ≤ 1 := by
  induction runs generalizing store with
  | nil => exact h
  | cons r tl ih =>
      rw [eurRunsStore, List.foldl_cons]
      exact ih _ (eurRun_count_le r (seedFromStore store) k h)

theorem euractiv_relativeLink_dedup (store : List String)
    (runs : List (List (Option String)))
    (hinv : ∀ k, store.count k ≤ 1) :
    (∀ k, (eurRunsStore store runs).count k ≤ 1) ∧
    (∀ st raw, st.existingLinks.contains (normalizeLink raw) = true →
        eurStep st (some raw) = st) ∧
    (∀ st raw, (eurStep st (some raw)).store ≠ st.store →
        (eurStep st (some raw)).existingLinks.contains (normalizeLink raw) = true) := by
  refine ⟨fun k => eurRunsStore_count_le runs store k (hinv k), ?_, ?_⟩
  · intro st raw h
    simp only [eurStep]
    rw [if_pos h]
  · intro st raw h
    simp only [eurStep] at h ⊢
    split_ifs at h ⊢ with h1 h2
    · exact absurd rfl h
    · exact absurd rfl h
    · simp [List.contains_cons]

theorem euractiv_relativeLink_dedup_witness :
    (eurRunsStore []
      [[some "/job/1/", some "/job/1?ref=2", none, some "/job/2"], [some "/job/1"]]).count
      "/job/1" ≤ 1 :=
  (euractiv_relativeLink_dedup []
    [[some "/job/1/", some "/job/1?ref=2", none, some "/job/2"], [some "/job/1"]]
    (fun k => by simp)).1 "/job/1"

theorem processStory_ne_saved (c : StoryCandidate) :
    processStory c ≠ StoryOutcome.savedRecord := by
  unfold processStory
  split_ifs
  · simp
  · simp
  · have h : evalNewJobModelCall =
        Except.error "ReferenceError: contactEmail is not defined" := rfl
    rw [h]
    simp

theorem stepStory_preserves (s : StoryStats) (c : StoryCandidate) :
    (stepStory s c).saved = s.saved ∧
    (stepStory s c).emailBranchRuns = s.emailBranchRuns := by
  unfold stepStory
  cases hps : processStory c with
  | errorMissingContent => exact ⟨rfl, rfl⟩
  | skippedDuplicate => exact ⟨rfl, rfl⟩
  | referenceErrored => exact ⟨rfl, rfl⟩
  | savedRecord => exact absurd hps (processStory_ne_saved c)

theorem foldl_stepStory_preserves (cs : List StoryCandidate) (s : StoryStats) :
    (cs.foldl stepStory s).saved = s.saved ∧
    (cs.foldl stepStory s).emailBranchRuns = s.emailBranchRuns := by
  induction cs generalizing s with
  | nil => exact ⟨rfl, rfl⟩
  | cons c tl ih =>
      rw [List.foldl_cons]
      have h1 := ih (stepStory s c)
      have h2 := stepStory_preserves s c
      exact ⟨h1.1.trans h2.1, h1.2.trans h2.2⟩

theorem storyblok_contactEmail_referror (cs : List StoryCandidate) :
    storyblokScope.contains "contactEmail" = false ∧
    evalNewJobModelCall = Except.error "ReferenceError: contactEmail is not defined" ∧
    (∀ c : StoryCandidate, c.hasContent = true → c.isDup = false →
        processStory c = StoryOutcome.referenceErrored) ∧
    (runStoryblok cs).saved = 0 ∧
    (runStoryblok cs).emailBranchRuns = 0 := by
  refine ⟨by decide, rfl, ?_, ?_, ?_⟩
  · intro c h1 h2
    have h : evalNewJobModelCall =
        Except.error "ReferenceError: contactEmail is not defined" := rfl
    simp [processStory, h1, h2, h]
  · exact (foldl_stepStory_preserves cs ⟨0, 0, 0, 0, 0⟩).1
  · exact (foldl_stepStory_preserves cs ⟨0, 0, 0, 0, 0⟩).2

theorem storyblok_contactEmail_referror_witness :
    processStory ⟨true, false⟩ = StoryOutcome.referenceErrored ∧
    (runStoryblok [⟨true, false⟩, ⟨true, true⟩, ⟨false, false⟩]).saved = 0 :=
  ⟨(storyblok_contactEmail_referror []).2.2.1 ⟨true, false⟩ rfl rfl,
   (storyblok_contactEmail_referror [⟨true, false⟩, ⟨true, true⟩, ⟨false, false⟩]).2.2.2.1⟩

end MyScrapers
